import Mathlib

/-!
Shallow embedding of the inferior-process controller of the `athelas` debugger
(`src/inferior.rs`, `src/debugger.rs`, `src/debugger_command.rs`) and proofs about it.

The traced child's memory is modelled as a total map from addresses to 64-bit machine
words; `ptrace` word reads and writes become lookups and pointwise updates of that map.
All machine integers are naturals with an explicit `% 2 ^ 64` where `u64` arithmetic
could wrap.
-/

namespace Athelas

/-- Bitwise complement of a 64-bit machine word: on naturals below `2 ^ 64`, the `u64`
operator `!x` is xor with the all-ones word. -/
def u64Not (x : Nat) : Nat := (2 ^ 64 - 1) ^^^ x

/-- Embedding of `Inferior::align_addr_to_word`, which computes
`addr & (-(size_of::<usize>() as isize) as usize)`. On the 64-bit target,
`-(8 : isize) as usize` is the two's-complement bit pattern `2 ^ 64 - 8`. -/
def align_addr_to_word (addr : Nat) : Nat :=
  addr &&& (2 ^ 64 - 8)

/-- Observable state of the traced child used by the controller: its memory, accessed a
word at a time through `ptrace`. Each value is a 64-bit machine word. -/
structure Child where
  mem : Nat → Nat

/-- Embedding of the `Inferior` struct from `src/inferior.rs`: it owns the child process
and nothing else. In particular it holds no set of installed breakpoint addresses and no
shadow map of displaced original bytes. -/
structure Inferior where
  child : Child

/-- Embedding of `ptrace::read`: fetch the machine word at an address of the child. -/
def ptraceRead (c : Child) (addr : Nat) : Nat := c.mem addr

/-- Embedding of `ptrace::write`: store a machine word at an address of the child. -/
def ptraceWrite (c : Child) (addr w : Nat) : Child :=
  ⟨fun a => if a = addr then w else c.mem a⟩

/-- Embedding of `Inferior::write_byte`: read the aligned word containing `addr`,
record the byte at `byte_offset` as `orig_byte`, splice `val` into that byte position,
write the updated word back, and return the original byte. The left shifts are `u64`
operations, hence the explicit `% 2 ^ 64`. -/
def write_byte (inf : Inferior) (addr val : Nat) : Nat × Inferior :=
  let aligned_addr := align_addr_to_word addr
  let byte_offset := addr - aligned_addr
  let word := ptraceRead inf.child aligned_addr
  let orig_byte := (word >>> (8 * byte_offset)) &&& 0xff
  let masked_word := word &&& u64Not ((0xff <<< (8 * byte_offset)) % 2 ^ 64)
  let updated := masked_word ||| ((val <<< (8 * byte_offset)) % 2 ^ 64)
  (orig_byte, ⟨ptraceWrite inf.child aligned_addr updated⟩)

/-- Embedding of `Inferior::set_breakpoint`: patch the trap byte `0xcc` at `addr` and
return the displaced byte. -/
def set_breakpoint (inf : Inferior) (addr : Nat) : Nat × Inferior :=
  write_byte inf addr 0xcc

/-- Extraction of the byte at byte offset `off` of a machine word, exactly as
`write_byte` computes its `orig_byte`. -/
def extractByte (w off : Nat) : Nat := (w >>> (8 * off)) &&& 0xff

/-- Replacement of the byte at byte offset `off` of a machine word by `val`, exactly as
`write_byte` computes its `updated` word. -/
def spliceByte (w off val : Nat) : Nat :=
  (w &&& u64Not ((0xff <<< (8 * off)) % 2 ^ 64)) ||| ((val <<< (8 * off)) % 2 ^ 64)

theorem write_byte_eq (inf : Inferior) (addr val : Nat) :
    write_byte inf addr val =
      (extractByte (inf.child.mem (align_addr_to_word addr)) (addr - align_addr_to_word addr),
       ⟨ptraceWrite inf.child (align_addr_to_word addr)
          (spliceByte (inf.child.mem (align_addr_to_word addr))
            (addr - align_addr_to_word addr) val)⟩) := rfl

/-- Bits at or above position 64 of a 64-bit word are clear. -/
theorem testBit_word_high {x : Nat} (hx : x < 2 ^ 64) {i : Nat} (hi : 64 ≤ i) :
    x.testBit i = false :=
  Nat.testBit_lt_two_pow (lt_of_lt_of_le hx (Nat.pow_le_pow_right (by norm_num) hi))

/-- Bits at or above position 8 of a byte are clear. -/
theorem testBit_byte_high {v : Nat} (hv : v < 256) {j : Nat} (hj : 8 ≤ j) :
    v.testBit j = false :=
  Nat.testBit_lt_two_pow
    (lt_of_lt_of_le hv (le_trans (by norm_num) (Nat.pow_le_pow_right (by norm_num) hj)))

/-- A byte shifted into byte position `off < 8` stays below `2 ^ 64`. -/
theorem byte_shift_lt {v : Nat} (hv : v < 256) {off : Nat} (hoff : off < 8) :
    v <<< (8 * off) < 2 ^ 64 := by
  rw [Nat.shiftLeft_eq]
  calc v * 2 ^ (8 * off) < 256 * 2 ^ (8 * off) :=
        (Nat.mul_lt_mul_right (Nat.two_pow_pos _)).mpr hv
    _ = 2 ^ (8 + 8 * off) := by rw [Nat.pow_add]
    _ ≤ 2 ^ 64 := Nat.pow_le_pow_right (by norm_num) (by omega)

/-- Alignment really is rounding down to a multiple of the word size. -/
theorem align_addr_to_word_eq (addr : Nat) (h : addr < 2 ^ 64) :
    align_addr_to_word addr = addr - addr % 8 := by
  have hshift : align_addr_to_word addr = (addr >>> 3) <<< 3 := by
    apply Nat.eq_of_testBit_eq
    intro i
    have hmask : (2 ^ 64 - 8 : Nat) = (2 ^ 64 - 1) ^^^ (2 ^ 3 - 1) := by decide
    rw [align_addr_to_word, hmask]
    simp only [Nat.testBit_and, Nat.testBit_xor, Nat.testBit_shiftLeft,
      Nat.testBit_shiftRight, Nat.testBit_two_pow_sub_one]
    rcases Nat.lt_or_ge i 3 with h3 | h3
    · have h64 : i < 64 := by omega
      simp [h3, h64, Nat.not_le.mpr h3]
    · rcases Nat.lt_or_ge i 64 with h64 | h64
      · have : 3 + (i - 3) = i := by omega
        simp [h3, h64, Nat.not_lt.mpr h3, this]
      · have hbit := testBit_word_high h h64
        have heq : 3 + (i - 3) = i := by omega
        simp [Nat.not_lt.mpr h3, Nat.not_lt.mpr h64, heq, hbit]
  rw [hshift, Nat.shiftLeft_eq, Nat.shiftRight_eq_div_pow]
  have h8 : (2 : Nat) ^ 3 = 8 := by norm_num
  rw [h8]
  omega

/-- The byte offset computed by `write_byte` is the address modulo the word size. -/
theorem byte_offset_eq (addr : Nat) (h : addr < 2 ^ 64) :
    addr - align_addr_to_word addr = addr % 8 := by
  rw [align_addr_to_word_eq addr h]
  omega

/-- Bit-level characterisation of `spliceByte`: inside the byte field the bits come from
`val`, elsewhere they come from `w`. -/
theorem testBit_spliceByte {w off val : Nat} (hw : w < 2 ^ 64) (hoff : off < 8)
    (hval : val < 256) (i : Nat) :
    (spliceByte w off val).testBit i =
      if 8 * off ≤ i ∧ i < 8 * off + 8 then val.testBit (i - 8 * off) else w.testBit i := by
  have hffmod : ((0xff : Nat) <<< (8 * off)) % 2 ^ 64 = 0xff <<< (8 * off) :=
    Nat.mod_eq_of_lt (byte_shift_lt (by norm_num) hoff)
  have hvalmod : (val <<< (8 * off)) % 2 ^ 64 = val <<< (8 * off) :=
    Nat.mod_eq_of_lt (byte_shift_lt hval hoff)
  have hff : (0xff : Nat) = 2 ^ 8 - 1 := by norm_num
  rw [spliceByte, hffmod, hvalmod, u64Not, hff]
  simp only [Nat.testBit_or, Nat.testBit_and, Nat.testBit_xor, Nat.testBit_shiftLeft,
    Nat.testBit_two_pow_sub_one]
  rcases Nat.lt_or_ge i 64 with h64 | h64
  · by_cases hlo : 8 * off ≤ i
    · by_cases hhi : i < 8 * off + 8
      · have hin : i - 8 * off < 8 := by omega
        simp [h64, hlo, hin, hhi]
      · have hout : ¬ i - 8 * off < 8 := by omega
        have hvbit : val.testBit (i - 8 * off) = false :=
          testBit_byte_high hval (by omega)
        simp [h64, hlo, hout, hvbit, hhi]
    · have : ¬ (8 * off ≤ i ∧ i < 8 * off + 8) := by omega
      simp [h64, hlo, this]
  · have hwbit : w.testBit i = false := testBit_word_high hw h64
    have hvbit : val.testBit (i - 8 * off) = false :=
      testBit_byte_high hval (by omega)
    have : ¬ (8 * off ≤ i ∧ i < 8 * off + 8) := by omega
    simp [hwbit, hvbit, this]

/-- Extracted bytes are bytes. -/
theorem extractByte_lt (w off : Nat) : extractByte w off < 256 :=
  lt_of_le_of_lt Nat.and_le_right (by norm_num)

/-- A spliced word is still a 64-bit word. -/
theorem spliceByte_lt {w : Nat} (hw : w < 2 ^ 64) (off val : Nat) :
    spliceByte w off val < 2 ^ 64 :=
  Nat.or_lt_two_pow (lt_of_le_of_lt Nat.and_le_left hw) (Nat.mod_lt _ (by norm_num))

/-- Extracting the byte just spliced in returns it. -/
theorem extractByte_spliceByte {w off val : Nat} (hw : w < 2 ^ 64) (hoff : off < 8)
    (hval : val < 256) :
    extractByte (spliceByte w off val) off = val := by
  apply Nat.eq_of_testBit_eq
  intro t
  have hff : (0xff : Nat) = 2 ^ 8 - 1 := by norm_num
  rw [extractByte, hff]
  simp only [Nat.testBit_and, Nat.testBit_shiftRight, Nat.testBit_two_pow_sub_one]
  rw [testBit_spliceByte hw hoff hval]
  rcases Nat.lt_or_ge t 8 with ht | ht
  · have hin : 8 * off ≤ 8 * off + t ∧ 8 * off + t < 8 * off + 8 := by omega
    have heq : 8 * off + t - 8 * off = t := by omega
    simp [hin, heq, ht]
  · have hout : ¬ (8 * off ≤ 8 * off + t ∧ 8 * off + t < 8 * off + 8) := by omega
    have hvbit : val.testBit t = false := testBit_byte_high hval ht
    simp [hout, hvbit, Nat.not_lt.mpr ht]

/-- Splicing does not change the other bytes of the word. -/
theorem extractByte_spliceByte_ne {w off off' val : Nat} (hw : w < 2 ^ 64) (hoff : off < 8)
    (hne : off' ≠ off) (hval : val < 256) :
    extractByte (spliceByte w off val) off' = extractByte w off' := by
  apply Nat.eq_of_testBit_eq
  intro t
  have hff : (0xff : Nat) = 2 ^ 8 - 1 := by norm_num
  rw [extractByte, extractByte, hff]
  simp only [Nat.testBit_and, Nat.testBit_shiftRight, Nat.testBit_two_pow_sub_one]
  rw [testBit_spliceByte hw hoff hval]
  rcases Nat.lt_or_ge t 8 with ht | ht
  · have hout : ¬ (8 * off ≤ 8 * off' + t ∧ 8 * off' + t < 8 * off + 8) := by
      rcases Nat.lt_or_ge off' off with hlt | hge
      · omega
      · have : off < off' := lt_of_le_of_ne hge (Ne.symm hne)
        omega
    simp [hout]
  · simp [Nat.not_lt.mpr ht]

/-- Splicing the byte a word already carries leaves the word unchanged. -/
theorem spliceByte_extractByte {w off : Nat} (hw : w < 2 ^ 64) (hoff : off < 8) :
    spliceByte w off (extractByte w off) = w := by
  apply Nat.eq_of_testBit_eq
  intro i
  rw [testBit_spliceByte hw hoff (extractByte_lt w off)]
  by_cases hin : 8 * off ≤ i ∧ i < 8 * off + 8
  · have hff : (0xff : Nat) = 2 ^ 8 - 1 := by norm_num
    rw [extractByte, hff]
    simp only [Nat.testBit_and, Nat.testBit_shiftRight, Nat.testBit_two_pow_sub_one]
    have heq : 8 * off + (i - 8 * off) = i := by omega
    have hlt : i - 8 * off < 8 := by omega
    simp [hin, heq, hlt]
  · simp [hin]

/-- Splicing the same byte position twice is the same as splicing once with the final
value. -/
theorem spliceByte_spliceByte {w off val val' : Nat} (hw : w < 2 ^ 64) (hoff : off < 8)
    (hval : val < 256) (hval' : val' < 256) :
    spliceByte (spliceByte w off val) off val' = spliceByte w off val' := by
  apply Nat.eq_of_testBit_eq
  intro i
  rw [testBit_spliceByte (spliceByte_lt hw off val) hoff hval',
    testBit_spliceByte hw hoff hval', testBit_spliceByte hw hoff hval]
  by_cases hin : 8 * off ≤ i ∧ i < 8 * off + 8
  · simp [hin]
  · simp [hin]

/-- The signals the controller distinguishes (from `nix::sys::signal::Signal`). -/
inductive Signal where
  | SIGTRAP
  | SIGSEGV
  | SIGINT
  | SIGKILL
  | SIGTERM
  deriving DecidableEq, Repr

/-- Embedding of the `Status` enum of `src/inferior.rs`. -/
inductive Status where
  | Stopped (signal : Signal) (rip : Nat)
  | Exited (exit_code : Int)
  | Signaled (signal : Signal)
  deriving DecidableEq, Repr

/-- Embedding of `nix::sys::wait::WaitStatus`, the kernel-reported wait event. -/
inductive WaitStatus where
  | Exited (pid : Nat) (exit_code : Int)
  | Signaled (pid : Nat) (signal : Signal) (core_dumped : Bool)
  | Stopped (pid : Nat) (signal : Signal)
  | PtraceEvent (pid : Nat) (signal : Signal) (event : Int)
  | StillAlive
  deriving DecidableEq, Repr

/-- The machine registers the controller reads via `ptrace::getregs`. -/
structure Regs where
  rip : Nat
  rbp : Nat
  deriving DecidableEq, Repr

/-- Embedding of `nix::Error` values the controller mentions. -/
inductive NixErr where
  | ECHILD
  | ESRCH
  | EPERM
  deriving DecidableEq, Repr

/-- Embedding of the decoding done by `Inferior::wait`, as a pure function of the wait
event returned by `waitpid` and the registers returned by `ptrace::getregs` (read only
in the `Stopped` arm). The result `none` models the `panic!` on a wait status outside
the four handled arms. The instruction pointer of a `Stopped` status is the raw
`regs.rip`: no arm subtracts the one-byte trap offset or consults any breakpoint set. -/
def wait (ws : WaitStatus) (regs : Regs) : Option Status :=
  match ws with
  | .Exited _pid exit_code => some (.Exited exit_code)
  | .Signaled _pid signal _core_dumped => some (.Signaled signal)
  | .Stopped _pid signal => some (.Stopped signal regs.rip)
  | .PtraceEvent _pid signal _event => some (.Signaled signal)
  | .StillAlive => none

/-- The `ptrace` and process primitives the controller can invoke on a live child. -/
inductive PtracePrim where
  | contOp
  | waitpidOp
  | getregsOp
  | stepOp
  | peek (addr : Nat)
  | poke (addr : Nat)
  deriving DecidableEq, Repr

/-- Whether a primitive writes the child's memory. -/
def PtracePrim.writesMemory : PtracePrim → Bool
  | .poke _ => true
  | _ => false

/-- Whether a primitive resumes the child for a single machine instruction. -/
def PtracePrim.singleSteps : PtracePrim → Bool
  | .stepOp => true
  | _ => false

/-- The sequence of primitives `Inferior::wait` performs: one `waitpid`, plus one
`getregs` when the event decodes as a stop. -/
def waitCalls (ws : WaitStatus) : List PtracePrim :=
  match ws with
  | .Stopped _ _ => [.waitpidOp, .getregsOp]
  | _ => [.waitpidOp]

/-- The sequence of primitives `Inferior::cont` performs: its body is exactly
`ptrace::cont(self.pid(), None)?` followed by `self.wait(None)`. -/
def contCalls (ws : WaitStatus) : List PtracePrim :=
  .contOp :: waitCalls ws

/-- Embedding of the value `Inferior::cont` returns: the decoding of the next wait
event, unchanged. -/
def cont (ws : WaitStatus) (regs : Regs) : Option Status :=
  wait ws regs

/-- Whether `Command::spawn` produced a child process. -/
inductive SpawnResult where
  | ok
  | err
  deriving DecidableEq, Repr

/-- Possible outcomes of `Inferior::new`: the `panic!("{}", e)` on a spawn error, the
`None` return, or `Some(inferior)` together with the list of breakpoint addresses that
were installed before returning. -/
inductive NewResult where
  | panicked
  | noInferior
  | inferior (installedBreakpoints : List Nat)
  deriving DecidableEq, Repr

/-- Embedding of the control flow of `Inferior::new`, as a function of the outcome of
`Command::spawn` and of the first `wait`. On a spawn error the code panics; on a wait
error it prints and returns `None`; on any `Ok` status it returns `Some(inferior)`,
installing the requested breakpoints only when the status is a stop with `SIGTRAP`. -/
def Inferior.new (spawnRes : SpawnResult) (firstWait : Except NixErr Status)
    (breakpoints : List Nat) : NewResult :=
  match spawnRes with
  | .err => .panicked
  | .ok =>
    match firstWait with
    | .ok status =>
      match status with
      | .Stopped sig _ => if sig = .SIGTRAP then .inferior breakpoints else .inferior []
      | _ => .inferior []
    | .error _ => .noInferior

/-- C1: continue on an inferior stopped at an installed breakpoint must restore the
original instruction byte, single-step, and reinstall the trap byte before resuming.
The code's `Inferior::cont` invokes exactly `ptrace::cont` followed by `waitpid` (and
`getregs` when the event is a stop): it performs no memory write and no single step,
so no restore, step-over, or reinstall happens before free execution resumes. -/
theorem cont_performs_no_restore_step_reinstall :
    contCalls (.Stopped 4242 .SIGTRAP) = [.contOp, .waitpidOp, .getregsOp]
    ∧ (∀ ws : WaitStatus,
        ((contCalls ws).all fun p => !p.writesMemory && !p.singleSteps) = true) := by
  refine ⟨rfl, ?_⟩
  intro ws
  cases ws <;> rfl

/-- C2: with a breakpoint installed at `0x401000` the trap stop delivers
`rip = 0x401001`, and `Inferior::wait` reports that raw register value in the `Stopped`
status instead of the corrected breakpoint address `0x401000`. -/
theorem wait_reports_raw_trap_address :
    wait (.Stopped 4242 .SIGTRAP) ⟨0x401001, 0x7fffffffe000⟩
      = some (.Stopped .SIGTRAP 0x401001)
    ∧ (some (Status.Stopped .SIGTRAP 0x401001) ≠ some (Status.Stopped .SIGTRAP 0x401000)) := by
  exact ⟨rfl, by decide⟩

/-- C3: the `Inferior` struct records no installed-breakpoint set and no original-byte
shadow, so installing a breakpoint twice at the same address hands back the trap byte
`0xcc` as the "original" byte the second time: the true original byte `0x55` of the
word at `0x1000` is lost. -/
theorem second_set_breakpoint_returns_trap_byte :
    (set_breakpoint (⟨⟨fun _ => 0x55⟩⟩ : Inferior) 0x1000).1 = 0x55
    ∧ (set_breakpoint (set_breakpoint (⟨⟨fun _ => 0x55⟩⟩ : Inferior) 0x1000).2 0x1000).1
        = 0xcc := by
  constructor <;> decide

/-- C4: `Inferior::new` panics (rather than returning `None`) when `Command::spawn`
fails, and returns `Some(inferior)` with no breakpoints installed (rather than `None`)
when the first wait event is not a stop on `SIGTRAP`; only an `Err` from `wait` yields
`None`. -/
theorem new_panics_on_spawn_failure_and_accepts_non_trap :
    Inferior.new .err (.ok (.Stopped .SIGTRAP 0x400000)) [0x400100] = .panicked
    ∧ Inferior.new .ok (.ok (.Exited 0)) [0x400100] = .inferior []
    ∧ Inferior.new .ok (.ok (.Stopped .SIGSEGV 0x400000)) [0x400100] = .inferior []
    ∧ Inferior.new .ok (.error .EPERM) [0x400100] = .noInferior := by
  refine ⟨rfl, rfl, ?_, rfl⟩
  decide

/-- C6: `write_byte` reads the aligned machine word containing `addr`, returns the byte
previously stored at offset `addr - aligned`, and writes back a word that differs from
the word read only in that single byte, which becomes `val`; `set_breakpoint` is this
primitive applied with the trap byte `0xcc`. -/
theorem write_byte_patches_single_byte (inf : Inferior) (addr val : Nat)
    (haddr : addr < 2 ^ 64) (hval : val < 256)
    (hmem : ∀ a, inf.child.mem a < 2 ^ 64) :
    align_addr_to_word addr = addr - addr % 8
    ∧ (write_byte inf addr val).1
        = extractByte (inf.child.mem (align_addr_to_word addr)) (addr - align_addr_to_word addr)
    ∧ extractByte ((write_byte inf addr val).2.child.mem (align_addr_to_word addr))
        (addr - align_addr_to_word addr) = val
    ∧ (∀ j, j ≠ addr - align_addr_to_word addr →
        extractByte ((write_byte inf addr val).2.child.mem (align_addr_to_word addr)) j
          = extractByte (inf.child.mem (align_addr_to_word addr)) j)
    ∧ (∀ a, a ≠ align_addr_to_word addr →
        (write_byte inf addr val).2.child.mem a = inf.child.mem a)
    ∧ set_breakpoint inf addr = write_byte inf addr 0xcc := by
  have hoff : addr - align_addr_to_word addr < 8 := by
    rw [byte_offset_eq addr haddr]
    omega
  have hw : inf.child.mem (align_addr_to_word addr) < 2 ^ 64 := hmem _
  rw [write_byte_eq]
  refine ⟨align_addr_to_word_eq addr haddr, rfl, ?_, ?_, ?_, rfl⟩
  · show extractByte (ptraceWrite inf.child (align_addr_to_word addr) _ |>.mem _) _ = val
    rw [ptraceWrite]
    simp only [if_pos rfl]
    exact extractByte_spliceByte hw hoff hval
  · intro j hj
    show extractByte (ptraceWrite inf.child (align_addr_to_word addr) _ |>.mem _) j = _
    rw [ptraceWrite]
    simp only [if_pos rfl]
    exact extractByte_spliceByte_ne hw hoff hj hval
  · intro a ha
    show (ptraceWrite inf.child (align_addr_to_word addr) _ |>.mem a) = _
    rw [ptraceWrite]
    simp only [if_neg ha]

/-- Witness for `write_byte_patches_single_byte` at a concrete word: patching the trap
byte at `0x1003` of the word `0x1122334455667788` returns the displaced byte `0x55`. -/
theorem write_byte_patches_single_byte_witness :
    (write_byte (⟨⟨fun _ => 0x1122334455667788⟩⟩ : Inferior) 0x1003 0xcc).1 = 0x55
    ∧ extractByte
        ((write_byte (⟨⟨fun _ => 0x1122334455667788⟩⟩ : Inferior) 0x1003 0xcc).2.child.mem
          (align_addr_to_word 0x1003)) (0x1003 - align_addr_to_word 0x1003) = 0xcc := by
  have h := write_byte_patches_single_byte (⟨⟨fun _ => 0x1122334455667788⟩⟩ : Inferior)
    0x1003 0xcc (by norm_num) (by norm_num) (fun a => by norm_num)
  refine ⟨h.2.1.trans ?_, h.2.2.1⟩
  decide

/-- Modelled from the spec: the source has no breakpoint bookkeeping, but spec section 3
gives the Inferior "the set of installed breakpoint addresses, a mapping from breakpoint
address to the original instruction byte it replaced". This record carries the source
`Inferior` together with that spec-described state. -/
structure TrackedInferior where
  inf : Inferior
  installed : List Nat
  shadow : Nat → Option Nat

/-- Modelled from the spec: installation with the bookkeeping of spec section 4.1 —
"extracts and records the byte at the correct offset as the shadow", with the
idempotency rule "setting a breakpoint already installed at the same address must not
overwrite the shadow with the trap byte; callers must check membership first". The
memory patch itself is the source `set_breakpoint`. -/
def set_breakpoint_tracked (s : TrackedInferior) (addr : Nat) : TrackedInferior :=
  if addr ∈ s.installed then s
  else
    let r := set_breakpoint s.inf addr
    { inf := r.2
      installed := addr :: s.installed
      shadow := fun a => if a = addr then some r.1 else s.shadow a }

/-- Modelled from the spec: `clear_breakpoint` is absent from the source; spec section
4.1 says it "restores the shadow byte at `address`, removes it from the installed set".
The restore goes through the source `write_byte`. -/
def clear_breakpoint (s : TrackedInferior) (addr : Nat) : TrackedInferior :=
  match s.shadow addr with
  | some b =>
    let r := write_byte s.inf addr b
    { inf := r.2
      installed := s.installed.erase addr
      shadow := fun a => if a = addr then none else s.shadow a }
  | none => s

/-- C5: `set_breakpoint(a)` followed immediately by `clear_breakpoint(a)` restores the
exact original byte — every memory word, in particular the word containing `a`, reads
identically before and after the round trip — and `clear_breakpoint` removes `a` from
the installed set. -/
theorem set_clear_round_trip (s : TrackedInferior) (addr : Nat) (haddr : addr < 2 ^ 64)
    (hmem : ∀ a, s.inf.child.mem a < 2 ^ 64) (hnew : addr ∉ s.installed) :
    (∀ a, (clear_breakpoint (set_breakpoint_tracked s addr) addr).inf.child.mem a
        = s.inf.child.mem a)
    ∧ addr ∉ (clear_breakpoint (set_breakpoint_tracked s addr) addr).installed := by
  have hoff : addr - align_addr_to_word addr < 8 := by
    rw [byte_offset_eq addr haddr]
    omega
  have hw : s.inf.child.mem (align_addr_to_word addr) < 2 ^ 64 := hmem _
  simp only [set_breakpoint_tracked, if_neg hnew, clear_breakpoint, set_breakpoint,
    write_byte_eq, ptraceWrite]
  simp only [if_true]
  refine ⟨fun a => ?_, ?_⟩
  · by_cases ha : a = align_addr_to_word addr
    · rw [if_pos ha, spliceByte_spliceByte hw hoff (by norm_num) (extractByte_lt _ _),
        spliceByte_extractByte hw hoff, ha]
    · rw [if_neg ha, if_neg ha]
  · rw [List.erase_cons_head]
    exact hnew

/-- Witness for `set_clear_round_trip`: a concrete round trip through address `0x2005`
on constant memory `0x4142434445464748` leaves every word unchanged and the installed
set empty. -/
theorem set_clear_round_trip_witness :
    (∀ a, (clear_breakpoint
        (set_breakpoint_tracked ⟨⟨⟨fun _ => 0x4142434445464748⟩⟩, [], fun _ => none⟩ 0x2005)
        0x2005).inf.child.mem a = 0x4142434445464748)
    ∧ 0x2005 ∉ (clear_breakpoint
        (set_breakpoint_tracked ⟨⟨⟨fun _ => 0x4142434445464748⟩⟩, [], fun _ => none⟩ 0x2005)
        0x2005).installed := by
  have h := set_clear_round_trip ⟨⟨⟨fun _ => 0x4142434445464748⟩⟩, [], fun _ => none⟩ 0x2005
    (by norm_num) (fun a => by norm_num) (by simp)
  exact ⟨fun a => h.1 a, h.2⟩

/-- Outcome of the `print_backtrace` loop: the frames printed so far, together with how
the loop ended — a normal `break`, the `panic!` hidden in
`debug_data.get_line_from_addr(instruction_ptr).unwrap()`, or exhaustion of the fuel
that bounds this embedding of the unbounded `loop`. -/
inductive BtOutcome where
  | ok (frames : List (String × String))
  | panicked (frames : List (String × String))
  | outOfFuel (frames : List (String × String))
  deriving DecidableEq, Repr

/-- Record one more printed frame in front of an outcome. -/
def BtOutcome.consFrame (fr : String × String) : BtOutcome → BtOutcome
  | .ok rest => .ok (fr :: rest)
  | .panicked rest => .panicked (fr :: rest)
  | .outOfFuel rest => .outOfFuel (fr :: rest)

/-- Embedding of the `loop` of `Inferior::print_backtrace`. Each iteration resolves
`instruction_ptr` to a function name (`break` on `None`), prints the frame after
unwrapping the line lookup (`panic!` on `None`), stops after the frame named `main`,
and otherwise reloads `instruction_ptr` from the word at `current_stack_frame + 8` and
`current_stack_frame` from the word at `current_stack_frame`. -/
def print_backtrace_loop (child : Child) (get_function_from_addr : Nat → Option String)
    (get_line_from_addr : Nat → Option String) :
    Nat → Nat → Nat → BtOutcome
  | 0, _, _ => .outOfFuel []
  | fuel + 1, instruction_ptr, current_stack_frame =>
    match get_function_from_addr instruction_ptr with
    | none => .ok []
    | some f =>
      match get_line_from_addr instruction_ptr with
      | none => .panicked []
      | some line =>
        if f = "main" then .ok [(f, line)]
        else
          BtOutcome.consFrame (f, line)
            (print_backtrace_loop child get_function_from_addr get_line_from_addr fuel
              (ptraceRead child (current_stack_frame + 8))
              (ptraceRead child current_stack_frame))

/-- Embedding of `Inferior::print_backtrace`: start the loop from the `rip` and `rbp`
registers of the stopped inferior. -/
def print_backtrace (child : Child) (get_function_from_addr : Nat → Option String)
    (get_line_from_addr : Nat → Option String) (regs : Regs) (fuel : Nat) : BtOutcome :=
  print_backtrace_loop child get_function_from_addr get_line_from_addr fuel regs.rip regs.rbp

/-- C7: one unwinder step reads the saved return address from the word 8 bytes above the
current frame base and the next frame base from the word at the frame base itself, and
the loop terminates exactly at the frame resolving to `main` — yielding a sequence of
length exactly 1 when the inferior is stopped inside `main` — or as soon as an address
fails to resolve to a function name. -/
theorem print_backtrace_advances_by_frame_pointer_and_stops_at_main (child : Child)
    (get_function_from_addr get_line_from_addr : Nat → Option String)
    (fuel ip sf : Nat) :
    (get_function_from_addr ip = none →
      print_backtrace_loop child get_function_from_addr get_line_from_addr
        (fuel + 1) ip sf = .ok [])
    ∧ (∀ l, get_function_from_addr ip = some "main" → get_line_from_addr ip = some l →
        print_backtrace_loop child get_function_from_addr get_line_from_addr
          (fuel + 1) ip sf = .ok [("main", l)])
    ∧ (∀ f l, get_function_from_addr ip = some f → f ≠ "main" →
        get_line_from_addr ip = some l →
        print_backtrace_loop child get_function_from_addr get_line_from_addr
          (fuel + 1) ip sf =
          BtOutcome.consFrame (f, l)
            (print_backtrace_loop child get_function_from_addr get_line_from_addr fuel
              (ptraceRead child (sf + 8)) (ptraceRead child sf))) := by
  refine ⟨?_, ?_, ?_⟩
  · intro h
    rw [print_backtrace_loop, h]
  · intro l hf hl
    simp only [print_backtrace_loop, hf, hl, if_true]
  · intro f l hf hne hl
    simp only [print_backtrace_loop, hf, hl]
    rw [if_neg hne]

/-- Witness for `print_backtrace_advances_by_frame_pointer_and_stops_at_main`: stopped
inside `main` at address 7, the backtrace yields exactly one frame. -/
theorem print_backtrace_stops_at_main_witness :
    print_backtrace_loop ⟨fun _ => 0⟩
      (fun a => if a = 7 then some "main" else none)
      (fun a => if a = 7 then some "sample.c:3" else none) 5 7 96 = .ok [("main", "sample.c:3")] :=
  (print_backtrace_advances_by_frame_pointer_and_stops_at_main ⟨fun _ => 0⟩
    (fun a => if a = 7 then some "main" else none)
    (fun a => if a = 7 then some "sample.c:3" else none) 4 7 96).2.1
    "sample.c:3" (by norm_num) (by norm_num)

/-- C9: a frame whose address resolves to a function name but whose source-line lookup
returns `None` makes `print_backtrace` panic through the `.unwrap()` at the line print
(the source comments "danger of panicing at runtime"), instead of yielding the frame or
terminating the loop normally. -/
theorem print_backtrace_panics_on_missing_line :
    print_backtrace_loop ⟨fun _ => 0⟩ (fun a => if a = 7 then some "helper" else none)
      (fun _ => none) 5 7 96 = .panicked [] := by
  rfl

/-- Value of one hexadecimal digit character, as `char::to_digit(16)` computes it. -/
def hexDigit? (c : Char) : Option Nat :=
  if '0' ≤ c ∧ c ≤ '9' then some (c.toNat - '0'.toNat)
  else if 'a' ≤ c ∧ c ≤ 'f' then some (c.toNat - 'a'.toNat + 10)
  else if 'A' ≤ c ∧ c ≤ 'F' then some (c.toNat - 'A'.toNat + 10)
  else none

/-- Digit-accumulation loop of `usize::from_str_radix(s, 16)`: every character must be
a hexadecimal digit and the checked arithmetic fails once the value leaves the 64-bit
range. Rust strings are modelled as their character lists (all inputs of interest are
ASCII, where byte slicing and character counting agree). -/
def parseHexDigits : List Char → Nat → Option Nat
  | [], acc => some acc
  | c :: cs, acc =>
    match hexDigit? c with
    | none => none
    | some d => if acc * 16 + d < 2 ^ 64 then parseHexDigits cs (acc * 16 + d) else none

/-- Embedding of `usize::from_str_radix(s, 16)`: an empty string fails, one optional
leading plus sign is allowed (a minus sign is not a sign for an unsigned type and fails
as a digit), and at least one digit must follow. -/
def from_str_radix_16 (s : List Char) : Option Nat :=
  match s with
  | [] => none
  | c :: cs =>
    match (if c = '+' then cs else c :: cs) with
    | [] => none
    | d :: ds => parseHexDigits (d :: ds) 0

/-- Prefix test on character lists, as `str::starts_with` behaves on ASCII strings. -/
def startsWithChars : List Char → List Char → Bool
  | [], _ => true
  | _ :: _, [] => false
  | p :: ps, c :: cs => p = c && startsWithChars ps cs

/-- Embedding of `Debugger::parse_address`: strip a leading `0x` when
`addr.to_lowercase()` starts with `"0x"` (the source then byte-slices the original
string with `&addr[2..]`, which on an ASCII `0x`/`0X` prefix drops exactly those two
characters) and parse the rest as hexadecimal. -/
def parse_address (addr : List Char) : Option Nat :=
  let addr_without_0x :=
    if startsWithChars ['0', 'x'] (addr.map Char.toLower) then addr.drop 2 else addr
  from_str_radix_16 addr_without_0x

/-- Outcome of the `DebuggerCommand::Break` arm of `Debugger::run`. -/
inductive BreakOutcome where
  | panicked
  | installed (addr : Nat)
  deriving DecidableEq, Repr

/-- Embedding of the `DebuggerCommand::Break(arg)` arm of `Debugger::run`, which runs
`self.parse_address(&arg[1..]).unwrap()`: the byte slice `&arg[1..]` drops the first
character of the token (and panics on an empty token, where byte index 1 is out of
bounds), and the `unwrap` panics whenever `parse_address` fails; otherwise the denoted
address goes on to the breakpoint list and to the controller. -/
def break_branch (arg : List Char) : BreakOutcome :=
  match arg with
  | [] => .panicked
  | _ :: rest =>
    match parse_address rest with
    | none => .panicked
    | some addr => .installed addr

/-- C8: `parse_address` itself accepts the documented format — `"0x10"` denotes 16 —
but the Break arm slices off the first character of the token before parsing, so the
well-formed token `"0x10"` reaches `parse_address` as `"x10"` and the `unwrap` panics;
an ill-formed token such as `"zz"` also panics instead of being reported. -/
theorem break_branch_panics_on_documented_format :
    parse_address ['0', 'x', '1', '0'] = some 0x10
    ∧ break_branch ['0', 'x', '1', '0'] = .panicked
    ∧ break_branch ['z', 'z'] = .panicked := by
  refine ⟨?_, ?_, ?_⟩ <;> decide

/-- Embedding of the session state of the `Debugger` struct that the command arms
read and write: the optional live inferior and the persistent breakpoint list. -/
structure Debugger where
  inferior : Option Inferior
  breakpoints : List Nat

/-- Embedding of the `DebuggerCommand::Cont` arm of `Debugger::run`, as a function of
the result of `inferior.cont()`. Every path only prints: the state, in particular
`self.inferior`, is returned unchanged — even when the status is terminal. -/
def cont_branch (d : Debugger) (contResult : Except NixErr Status)
    (get_line_from_addr get_function_from_addr : Nat → Option String) :
    Debugger × List String :=
  match d.inferior with
  | none => (d, [])
  | some _ =>
    match contResult with
    | .ok status =>
      let stoppedMsg :=
        match status with
        | .Stopped _ rip =>
          match get_line_from_addr rip, get_function_from_addr rip with
          | some line, some func => ["Stopped at " ++ func ++ " (" ++ line ++ ")"]
          | _, _ => []
        | _ => []
      (d, "Child process" :: stoppedMsg)
    | .error _ => (d, ["error cannot continue child process"])

/-- One step of the session loop that may panic (`start_deet` panics when `cont` on the
fresh inferior fails). -/
inductive SessionStep where
  | normal (d : Debugger) (msgs : List String)
  | panicked

/-- Embedding of `Debugger::start_deet`, as a function of the result of
`Inferior::new` and of the first `cont` on the fresh inferior: a terminal first status
stores `None` in `self.inferior`, a stop stores `Some(inferior)`, a `cont` error
panics, and a failed spawn leaves the state untouched. -/
def start_deet (d : Debugger) (newResult : Option Inferior)
    (contResult : Except NixErr Status)
    (get_line_from_addr get_function_from_addr : Nat → Option String) : SessionStep :=
  match newResult with
  | some inferior =>
    match contResult with
    | .ok status =>
      match status with
      | .Exited _ => .normal { d with inferior := none } ["Child exited"]
      | .Signaled _ => .normal { d with inferior := none } ["Child exited due to signal"]
      | .Stopped _ rip =>
        let stoppedMsg :=
          match get_line_from_addr rip, get_function_from_addr rip with
          | some line, some func => ["Stopped at " ++ func ++ " (" ++ line ++ ")"]
          | _, _ => []
        .normal { d with inferior := some inferior } ("Child Stopped" :: stoppedMsg)
    | .error _ => .panicked
  | none => .normal d ["Error starting subprocess"]

/-- C10: the Continue arm never writes the session's `inferior` field (or any other
field): the state component of `cont_branch` is the input state, for every stored
inferior and every status `cont` returns, terminal ones included; only `start_deet`
(the Run/spawn path) stores `none` after a terminal first status or `some` after a
stop. -/
theorem cont_branch_preserves_inferior :
    (∀ (d : Debugger) (r : Except NixErr Status)
        (gl gf : Nat → Option String), (cont_branch d r gl gf).1 = d)
    ∧ (∀ (d : Debugger) (inf : Inferior) (code : Int)
        (gl gf : Nat → Option String),
        start_deet d (some inf) (.ok (.Exited code)) gl gf =
          .normal { d with inferior := none } ["Child exited"])
    ∧ (∀ (d : Debugger) (inf : Inferior) (sig : Signal) (rip : Nat)
        (gl gf : Nat → Option String), gl rip = none →
        start_deet d (some inf) (.ok (.Stopped sig rip)) gl gf =
          .normal { d with inferior := some inf } ["Child Stopped"]) := by
  refine ⟨?_, ?_, ?_⟩
  · intro d r gl gf
    rcases d with ⟨inf, bps⟩
    cases inf <;> cases r <;> rfl
  · intro d inf code gl gf
    rfl
  · intro d inf sig rip gl gf hl
    simp only [start_deet, hl]

/-- Witness for `cont_branch_preserves_inferior` at concrete inputs: continuing past an
`Exited` status leaves the stored inferior in place, and the spawn path stores the
fresh inferior on a stop. -/
theorem cont_branch_preserves_inferior_witness :
    (cont_branch ⟨some ⟨⟨fun _ => 0⟩⟩, [0x1000]⟩ (.ok (.Exited 0))
        (fun _ => none) (fun _ => none)).1 = ⟨some ⟨⟨fun _ => 0⟩⟩, [0x1000]⟩
    ∧ start_deet ⟨none, []⟩ (some ⟨⟨fun _ => 0⟩⟩) (.ok (.Stopped .SIGTRAP 5))
        (fun _ => none) (fun _ => none) =
        .normal ⟨some ⟨⟨fun _ => 0⟩⟩, []⟩ ["Child Stopped"] := by
  constructor
  · exact cont_branch_preserves_inferior.1 ⟨some ⟨⟨fun _ => 0⟩⟩, [0x1000]⟩ (.ok (.Exited 0))
      (fun _ => none) (fun _ => none)
  · exact cont_branch_preserves_inferior.2.2 ⟨none, []⟩ ⟨⟨fun _ => 0⟩⟩ .SIGTRAP 5
      (fun _ => none) (fun _ => none) rfl
